import Mathlib

/-!
Verification development for the DKB-to-Ghostfolio trade-data converter
(`parse.py`).  The program text is shallowly embedded: document texts are
lists of characters, the five regular expressions of the source are
translated into explicit leftmost-search matchers, `datetime.strptime` /
`datetime.isoformat` are modelled over a record of calendar fields, and the
per-document loop of `generate_dkb_trade_data` becomes an explicit state
passing function.  Fallible steps return `Option`; an unhandled Python
exception (AttributeError / ValueError) is the `crash` outcome.
-/

namespace Dkb

/-- Characters counted by the regex class `\d`. -/
def isDigitChar (c : Char) : Bool := '0' ≤ c && c ≤ '9'

/-- Characters counted by the regex class `\s` (the ASCII core used by the
documents: space, tab, newline, carriage return, vertical tab, form feed). -/
def isSpaceChar (c : Char) : Bool :=
  c = ' ' || c = '\t' || c = '\n' || c = '\r' || c = '\x0b' || c = '\x0c'

/-- Characters counted by the regex class `\w` (ASCII core: letters, digits
and underscore; sufficient for the identifier codes the program matches). -/
def isWordChar (c : Char) : Bool := c.isAlphanum || c = '_'

/-- The character list of a string literal. -/
def strL (s : String) : List Char := s.data

/-- Strip an exact literal from the front of the input, as a regex literal
does; `none` when the literal is not a prefix. -/
def stripLit : List Char → List Char → Option (List Char)
  | [], s => some s
  | _ :: _, [] => none
  | l :: ls, c :: cs => if c = l then stripLit ls cs else none

/-- Take exactly `n` characters satisfying `p` (regex `X{n}`), returning the
taken characters and the rest. -/
def takeExact (p : Char → Bool) : Nat → List Char → Option (List Char × List Char)
  | 0, s => some ([], s)
  | _ + 1, [] => none
  | n + 1, c :: cs =>
    if p c then (takeExact p n cs).map (fun x => (c :: x.1, x.2)) else none

/-- Leftmost search: try the matcher at every start position from the left,
exactly as `re.search` does. -/
def searchWith {A : Type} (m : List Char → Option A) : List Char → Option A
  | [] => m []
  | c :: cs =>
    match m (c :: cs) with
    | some r => some r
    | none => searchWith m cs

/-- Numeric value of a digit string, as `float("…")` reads an integer part. -/
def digitsToNat (l : List Char) : Nat :=
  l.foldl (fun a c => 10 * a + (c.toNat - '0'.toNat)) 0

/-- Matcher for `date_regex = Schlusstag\s*(\d{2}\.\d{2}\.\d{4})` at one
position; returns the text of capture group 1.  The whitespace star is a
maximal munch, which agrees with the regex because whitespace and digits are
disjoint. -/
def matchDateAt (s : List Char) : Option (List Char) := do
  let s ← stripLit (strL "Schlusstag") s
  let s := s.dropWhile isSpaceChar
  let (d, s) ← takeExact isDigitChar 2 s
  let s ← stripLit ['.'] s
  let (mo, s) ← takeExact isDigitChar 2 s
  let s ← stripLit ['.'] s
  let (y, _) ← takeExact isDigitChar 4 s
  pure (d ++ ['.'] ++ mo ++ ['.'] ++ y)

/-- Matcher for `date_time_regex` (the literal label "Schlusstag/ -Zeit"
written without the space, then `\s*(\d{2}\.\d{2}\.\d{4}\s+\d{2}:\d{2}:\d{2})`)
at one position; returns capture group 1 including the whitespace run that
`\s+` actually consumed. -/
def matchDateTimeAt (s : List Char) : Option (List Char) := do
  let s ← stripLit (strL "Schlusstag/-Zeit") s
  let s := s.dropWhile isSpaceChar
  let (d, s) ← takeExact isDigitChar 2 s
  let s ← stripLit ['.'] s
  let (mo, s) ← takeExact isDigitChar 2 s
  let s ← stripLit ['.'] s
  let (y, s) ← takeExact isDigitChar 4 s
  let ws := s.takeWhile isSpaceChar
  if ws = [] then none
  else do
    let s := s.dropWhile isSpaceChar
    let (h, s) ← takeExact isDigitChar 2 s
    let s ← stripLit [':'] s
    let (mi, s) ← takeExact isDigitChar 2 s
    let s ← stripLit [':'] s
    let (se, _) ← takeExact isDigitChar 2 s
    pure (d ++ ['.'] ++ mo ++ ['.'] ++ y ++ ws ++ h ++ [':'] ++ mi ++ [':'] ++ se)

/-- The closed set of two-letter country prefixes of
`isin_regex = ((IE|US|CA|CH|GB|AU|KY)\w{10})`. -/
def countryCodes : List (List Char) :=
  [strL "IE", strL "US", strL "CA", strL "CH", strL "GB", strL "AU", strL "KY"]

/-- Matcher for `isin_regex` at one position; returns capture group 1
(the two-letter prefix plus ten word characters). -/
def matchIsinAt (s : List Char) : Option (List Char) :=
  match s with
  | a :: b :: rest =>
    if [a, b] ∈ countryCodes then
      match takeExact isWordChar 10 rest with
      | some (w, _) => some (a :: b :: w)
      | none => none
    else none
  | _ => none

/-- Matcher for `pieces_regex = Stück\s*(\d+)(?:,(\d+))?` at one position;
returns the integer capture and the optional fractional capture.  When a
comma follows the integer digits but no digit follows the comma, the
optional group matches empty, exactly as the regex backtracks. -/
def matchPiecesAt (s : List Char) : Option (List Char × Option (List Char)) :=
  match stripLit (strL "Stück") s with
  | none => none
  | some s1 =>
    let s2 := s1.dropWhile isSpaceChar
    let ds := s2.takeWhile isDigitChar
    if ds = [] then none
    else
      match s2.dropWhile isDigitChar with
      | ',' :: s4 =>
        let fs := s4.takeWhile isDigitChar
        if fs = [] then some (ds, none) else some (ds, some fs)
      | _ => some (ds, none)

/-- Matcher for `price_regex = Ausführungskurs\s*(\d+),(\d+)\s+EUR` at one
position; both captures are mandatory and the match must be followed by at
least one whitespace character and the literal `EUR`. -/
def matchPriceAt (s : List Char) : Option (List Char × List Char) :=
  match stripLit (strL "Ausführungskurs") s with
  | none => none
  | some s1 =>
    let s2 := s1.dropWhile isSpaceChar
    let ds := s2.takeWhile isDigitChar
    if ds = [] then none
    else
      match stripLit [','] (s2.dropWhile isDigitChar) with
      | none => none
      | some s4 =>
        let fs := s4.takeWhile isDigitChar
        if fs = [] then none
        else
          let s5 := s4.dropWhile isDigitChar
          if s5.takeWhile isSpaceChar = [] then none
          else
            match stripLit (strL "EUR") (s5.dropWhile isSpaceChar) with
            | none => none
            | some _ => some (ds, fs)

/-- `re.search(date_regex, text)`. -/
def searchDate (text : List Char) : Option (List Char) :=
  searchWith matchDateAt text

/-- `re.search(date_time_regex, text)`. -/
def searchDateTime (text : List Char) : Option (List Char) :=
  searchWith matchDateTimeAt text

/-- `re.search(isin_regex, text)`. -/
def searchIsin (text : List Char) : Option (List Char) :=
  searchWith matchIsinAt text

/-- `re.search(pieces_regex, text)`. -/
def searchPieces (text : List Char) : Option (List Char × Option (List Char)) :=
  searchWith matchPiecesAt text

/-- `re.search(price_regex, text)`. -/
def searchPrice (text : List Char) : Option (List Char × List Char) :=
  searchWith matchPriceAt text

/-- The calendar fields of a Python `datetime` value (no timezone, sub-second
part always zero for the formats this program parses). -/
structure PDateTime where
  year : Nat
  month : Nat
  day : Nat
  hour : Nat
  minute : Nat
  second : Nat
deriving DecidableEq

/-- Gregorian leap-year rule, as `datetime` uses it. -/
def isLeapYear (y : Nat) : Bool := y % 4 = 0 && (y % 100 ≠ 0 || y % 400 = 0)

/-- Length of a month, as `datetime` validates the day field. -/
def daysInMonth (y m : Nat) : Nat :=
  if m = 2 then (if isLeapYear y then 29 else 28)
  else if m = 4 || m = 6 || m = 9 || m = 11 then 30
  else 31

/-- The combined range checks performed by `strptime`'s directive patterns
together with the `datetime` constructor: a nonzero year, a real calendar
date, and in-range time-of-day fields.  A violation makes `strptime` raise
`ValueError`. -/
def dtOk (d : PDateTime) : Bool :=
  1 ≤ d.year && 1 ≤ d.month && d.month ≤ 12 && 1 ≤ d.day &&
    d.day ≤ daysInMonth d.year d.month &&
    d.hour ≤ 23 && d.minute ≤ 59 && d.second ≤ 59

/-- Model of `datetime.strptime(s, "%d.%m.%Y %H:%M:%S")` on the strings this
program can pass to it (capture group 1 of the date-time regex, whose digit
fields are exactly two or four digits wide; the single space of the format
string matches a nonempty whitespace run, as CPython's `_strptime` replaces
format whitespace by `\s+`).  Returns `none` where Python raises
`ValueError`. -/
def strptimeDateTime (s : List Char) : Option PDateTime := do
  let (dd, s) ← takeExact isDigitChar 2 s
  let s ← stripLit ['.'] s
  let (mo, s) ← takeExact isDigitChar 2 s
  let s ← stripLit ['.'] s
  let (yy, s) ← takeExact isDigitChar 4 s
  let ws := s.takeWhile isSpaceChar
  let s := s.dropWhile isSpaceChar
  let (hh, s) ← takeExact isDigitChar 2 s
  let s ← stripLit [':'] s
  let (mi, s) ← takeExact isDigitChar 2 s
  let s ← stripLit [':'] s
  let (ss, s) ← takeExact isDigitChar 2 s
  if ws = [] then none
  else if s ≠ [] then none
  else
    let dt : PDateTime :=
      ⟨digitsToNat yy, digitsToNat mo, digitsToNat dd,
        digitsToNat hh, digitsToNat mi, digitsToNat ss⟩
    if dtOk dt then some dt else none

/-- Model of `datetime.strptime(s, "%d.%m.%Y")`, under the same conventions
as `strptimeDateTime`; the unset time-of-day fields default to midnight. -/
def strptimeDate (s : List Char) : Option PDateTime := do
  let (dd, s) ← takeExact isDigitChar 2 s
  let s ← stripLit ['.'] s
  let (mo, s) ← takeExact isDigitChar 2 s
  let s ← stripLit ['.'] s
  let (yy, s) ← takeExact isDigitChar 4 s
  if s ≠ [] then none
  else
    let dt : PDateTime := ⟨digitsToNat yy, digitsToNat mo, digitsToNat dd, 0, 0, 0⟩
    if dtOk dt then some dt else none

/-- Decimal digit character of a value below ten. -/
def digitChar (n : Nat) : Char := Char.ofNat (48 + n)

/-- Two-digit zero-padded decimal rendering. -/
def pad2 (n : Nat) : String := String.mk [digitChar (n / 10 % 10), digitChar (n % 10)]

/-- Four-digit zero-padded decimal rendering. -/
def pad4 (n : Nat) : String :=
  String.mk [digitChar (n / 1000 % 10), digitChar (n / 100 % 10),
    digitChar (n / 10 % 10), digitChar (n % 10)]

/-- Python `datetime.isoformat()` for the values this program produces
(zero microseconds, no timezone): `YYYY-MM-DDTHH:MM:SS`. -/
def isoformat (d : PDateTime) : String :=
  pad4 d.year ++ "-" ++ pad2 d.month ++ "-" ++ pad2 d.day ++ "T" ++
    pad2 d.hour ++ ":" ++ pad2 d.minute ++ ":" ++ pad2 d.second

/-- The dictionary built at the end of `parse_trade_data`, with `type` added
later by the caller (modelled as the empty string until it is set).  The two
float fields are idealised as rationals. -/
structure TradeRecord where
  accountId : String
  comment : String
  fee : ℚ
  quantity : ℚ
  unitPrice : ℚ
  currency : String
  dataSource : String
  date : String
  symbol : String
  type : String
deriving DecidableEq

/-- Value of `float(f"0.{g}")` for an optional fractional capture `g`,
i.e. the captured digits read as a decimal fraction (0 when absent). -/
def fracPart : Option (List Char) → ℚ
  | none => 0
  | some ds => (digitsToNat ds : ℚ) / 10 ^ ds.length

/-- Value of `float(pieces.group(1)) + (float(f"0.{pieces.group(2)}") if
pieces.group(2) else 0)`. -/
def pieceVal (g : List Char × Option (List Char)) : ℚ :=
  (digitsToNat g.1 : ℚ) + fracPart g.2

/-- Value of `float(price.group(1)) + float(f"0.{price.group(2)}")` (the
second price capture is mandatory and nonempty, hence truthy). -/
def priceVal (g : List Char × List Char) : ℚ :=
  (digitsToNat g.1 : ℚ) + fracPart (some g.2)

/-- The quantity value extracted from a text by the pieces regex, when it
matches. -/
def pieceValOf (text : List Char) : Option ℚ := (searchPieces text).map pieceVal

/-- The unit price extracted from a text by the price regex, when it
matches. -/
def priceValOf (text : List Char) : Option ℚ := (searchPrice text).map priceVal

/-- Outcome of the timestamp extraction step (lines 72-80 of `parse.py`):
a parsed date rendered by `isoformat`, the missing-date skip, or an
unhandled `ValueError` from `strptime`. -/
inductive DateResult where
  | ok (s : String)
  | missingDate
  | crash
deriving DecidableEq

/-- Lines 72-80 of `parse_trade_data`: prefer the combined date-time regex,
fall back to the date-only regex, otherwise report a missing date. -/
def extractDate (text : List Char) : DateResult :=
  match searchDateTime text with
  | some g =>
    match strptimeDateTime g with
    | some dt => DateResult.ok (isoformat dt)
    | none => DateResult.crash
  | none =>
    match searchDate text with
    | some g =>
      match strptimeDate g with
      | some d => DateResult.ok (isoformat d)
      | none => DateResult.crash
    | none => DateResult.missingDate

/-- Outcome of `parse_trade_data`: the returned dictionary, the `None`
return (caller skips the document), or an unhandled exception. -/
inductive ParseResult where
  | ok (t : TradeRecord)
  | skipped
  | crash
deriving DecidableEq

/-- The record literal of lines 85-95 of `parse.py`. -/
def mkRecord (isin : List Char) (ds : String)
    (g : List Char × Option (List Char)) (p : List Char × List Char) : TradeRecord :=
  { accountId := "e2a4628f-1146-4ab8-b559-6058c7657bbb"
    comment := ""
    fee := 0
    quantity := pieceVal g
    unitPrice := priceVal p
    currency := "EUR"
    dataSource := "MANUAL"
    date := ds
    symbol := String.mk isin
    type := "" }

/-- `parse_trade_data` (lines 66-95 of `parse.py`).  A failed identifier or
date search returns `None` (modelled `skipped`); a failed pieces or price
search makes the subsequent `.group(…)` call raise `AttributeError`
(modelled `crash`), as does a `ValueError` from `strptime`. -/
def parse_trade_data (text : List Char) : ParseResult :=
  match searchIsin text with
  | none => ParseResult.skipped
  | some isin =>
    match extractDate text with
    | DateResult.crash => ParseResult.crash
    | DateResult.missingDate => ParseResult.skipped
    | DateResult.ok ds =>
      match searchPieces text with
      | none => ParseResult.crash
      | some g =>
        match searchPrice text with
        | none => ParseResult.crash
        | some p => ParseResult.ok (mkRecord isin ds g p)

/-- The hardcoded ignore list of `parse.py`. -/
def ignoredsymbols : List String :=
  ["CH0108503795", "US3682872078", "GB00B03MLX29", "US36467W1099",
   "AU000000FGR3", "CA04016J1021", "IE00BYMS5W68", "CA4063721027", "KYG9830T1067"]

/-- Boolean prefix test on character lists (`str.startswith`). -/
def isPrefixOfL : List Char → List Char → Bool
  | [], _ => true
  | _ :: _, [] => false
  | p :: ps, c :: cs => (p = c) && isPrefixOfL ps cs

/-- Boolean suffix test on character lists (`str.endswith`). -/
def isSuffixOfL (pat s : List Char) : Bool := isPrefixOfL pat.reverse s.reverse

/-- Boolean substring test on character lists (Python `in` on strings). -/
def containsSub (pat : List Char) : List Char → Bool
  | [] => isPrefixOfL pat []
  | c :: cs => isPrefixOfL pat (c :: cs) || containsSub pat cs

/-- An input document: its filename and the text extracted from its first
page (the PDF reading itself is I/O plumbing outside the embedded core). -/
structure Doc where
  fname : List Char
  text : List Char
deriving DecidableEq

/-- The filename classification of lines 31-38 of `parse.py`: `.pdf` files
named `Kauf_…` or `Verkauf_…` and containing `Wertpapierabrechnung` become
BUY respectively SELL documents; everything else is skipped. -/
def classify (fname : List Char) : Option String :=
  if isSuffixOfL (strL ".pdf") fname then
    if isPrefixOfL (strL "Kauf_") fname && containsSub (strL "Wertpapierabrechnung") fname then
      some "BUY"
    else if isPrefixOfL (strL "Verkauf_") fname && containsSub (strL "Wertpapierabrechnung") fname then
      some "SELL"
    else none
  else none

/-- The caller's `trade["type"] = trade_type` assignment. -/
def withType (t : TradeRecord) (tt : String) : TradeRecord := { t with type := tt }

/-- The duplicate scan and conditional append of lines 54-60 of `parse.py`:
discard the candidate when any existing record has the same `date` string,
otherwise append it at the end. -/
def integrate (c : TradeRecord) (coll : List TradeRecord) : List TradeRecord :=
  if coll.any (fun r => decide (r.date = c.date)) then coll else coll ++ [c]

/-- One iteration of the document loop of `generate_dkb_trade_data`
(lines 29-60): classify the filename, parse the text, skip `None` results,
set the trade type, drop ignored symbols, and integrate the candidate.
`none` models an unhandled exception aborting the run (no output is written
in that case, since the dump happens after the loop). -/
def processDoc (data : List TradeRecord) (d : Doc) : Option (List TradeRecord) :=
  match classify d.fname with
  | none => some data
  | some tt =>
    match parse_trade_data d.text with
    | ParseResult.crash => none
    | ParseResult.skipped => some data
    | ParseResult.ok t0 =>
      let t := withType t0 tt
      if t.symbol ∈ ignoredsymbols then some data
      else some (integrate t data)

/-- The whole document loop, starting from the loaded (merge mode) or empty
collection and returning the collection that is dumped to the output file. -/
def runBatch (docs : List Doc) (data : List TradeRecord) : Option (List TradeRecord) :=
  match docs with
  | [] => some data
  | d :: ds =>
    match processDoc data d with
    | none => none
    | some data2 => runBatch ds data2

/-! ### Concrete fixtures used to exercise the model -/

/-- A well-formed buy-confirmation text with a combined date-time field. -/
def tA : List Char :=
  strL "US19260Q1076 Schlusstag/-Zeit 05.03.2021 14:30:55 Stück 2 Ausführungskurs 328,90 EUR"

/-- Capture group 1 of the date-time regex on `tA`. -/
def gA : List Char := strL "05.03.2021 14:30:55"

/-- The instant denoted by `gA`. -/
def dtA : PDateTime := ⟨2021, 3, 5, 14, 30, 55⟩

/-- The record `parse_trade_data` returns on `tA` (type not yet set); the
numeric fields are written as the parser's own value expressions, which keeps
them definitionally transparent. -/
def recA : TradeRecord :=
  { accountId := "e2a4628f-1146-4ab8-b559-6058c7657bbb", comment := "", fee := 0,
    quantity := pieceVal (strL "2", none), unitPrice := priceVal (strL "328", strL "90"),
    currency := "EUR", dataSource := "MANUAL",
    date := "2021-03-05T14:30:55", symbol := "US19260Q1076", type := "" }

/-- The same record after the caller sets the BUY type. -/
def recA2 : TradeRecord := withType recA "BUY"

/-- A record with a different date, for exercising the duplicate scan. -/
def recB : TradeRecord := { recA2 with date := "2021-03-06T00:00:00" }

/-- A qualifying buy document carrying `tA`. -/
def docA : Doc := ⟨strL "Kauf_Wertpapierabrechnung_A.pdf", tA⟩

/-- A text with identifier and date but no quantity field at all. -/
def tC2 : List Char :=
  strL "US19260Q1076 Schlusstag 05.03.2021 Ausführungskurs 10,00 EUR"

/-- A qualifying document carrying the quantity-free text `tC2`. -/
def docC2 : Doc := ⟨strL "Kauf_Wertpapierabrechnung_B.pdf", tC2⟩

/-- A well-formed text whose quantity field is zero. -/
def tC7 : List Char :=
  strL "US19260Q1076 Schlusstag 05.03.2021 Stück 0 Ausführungskurs 10,00 EUR"

/-- A qualifying document carrying `tC7`. -/
def docC7 : Doc := ⟨strL "Kauf_Wertpapierabrechnung_D.pdf", tC7⟩

/-- The record the pipeline builds from `tC7`: quantity zero, BUY type. -/
def recC7 : TradeRecord :=
  { accountId := "e2a4628f-1146-4ab8-b559-6058c7657bbb", comment := "", fee := 0,
    quantity := pieceVal (strL "0", none), unitPrice := priceVal (strL "10", strL "00"),
    currency := "EUR", dataSource := "MANUAL",
    date := "2021-03-05T00:00:00", symbol := "US19260Q1076", type := "BUY" }

/-- A well-formed text whose identifier is on the ignore list. -/
def tC9 : List Char :=
  strL "CH0108503795 Schlusstag 05.03.2021 Stück 1 Ausführungskurs 10,00 EUR"

/-- A qualifying document carrying `tC9`. -/
def docC9 : Doc := ⟨strL "Kauf_Wertpapierabrechnung_C.pdf", tC9⟩

/-- The record `parse_trade_data` returns on `tC9` (type not yet set). -/
def recC9 : TradeRecord :=
  { accountId := "e2a4628f-1146-4ab8-b559-6058c7657bbb", comment := "", fee := 0,
    quantity := pieceVal (strL "1", none), unitPrice := priceVal (strL "10", strL "00"),
    currency := "EUR", dataSource := "MANUAL",
    date := "2021-03-05T00:00:00", symbol := "CH0108503795", type := "" }

/-! ### Basic lemmas about the reconciler -/

/-- The boolean duplicate scan succeeds exactly when some existing record
has the candidate's date. -/
theorem any_date_iff (c : TradeRecord) (coll : List TradeRecord) :
    (coll.any fun r => decide (r.date = c.date)) = true ↔ ∃ r ∈ coll, r.date = c.date := by
  simp [List.any_eq_true]

/-! ### Claim C1 -/

/-- C1: the reconciler discards a candidate exactly when some existing
record's date equals the candidate's date (no other field enters the
comparison), and otherwise appends the candidate at the end; consequently a
collection with pairwise-distinct dates keeps pairwise-distinct dates. -/
theorem C1_dedup_by_date_only (c : TradeRecord) (coll : List TradeRecord) :
    (integrate c coll = if ∃ r ∈ coll, r.date = c.date then coll else coll ++ [c])
    ∧ ((coll.map TradeRecord.date).Nodup →
        ((integrate c coll).map TradeRecord.date).Nodup) := by
  constructor
  · unfold integrate
    by_cases h : ∃ r ∈ coll, r.date = c.date
    · rw [if_pos ((any_date_iff c coll).mpr h), if_pos h]
    · rw [if_neg (fun hb => h ((any_date_iff c coll).mp hb)), if_neg h]
  · intro hnd
    unfold integrate
    by_cases h : ∃ r ∈ coll, r.date = c.date
    · rw [if_pos ((any_date_iff c coll).mpr h)]; exact hnd
    · rw [if_neg (fun hb => h ((any_date_iff c coll).mp hb))]
      rw [List.map_append]
      rw [List.nodup_append]
      refine ⟨hnd, List.nodup_singleton _, ?_⟩
      intro a ha hb
      rcases List.mem_map.mp ha with ⟨r, hr, hre⟩
      rcases List.mem_singleton.mp hb with rfl
      exact h ⟨r, hr, hre⟩

/-- Witness for C1 at concrete inputs: a distinct-date collection stays
distinct after integrating a fresh candidate. -/
theorem C1_dedup_witness :
    ([recA2].map TradeRecord.date).Nodup
    ∧ ((integrate recB [recA2]).map TradeRecord.date).Nodup :=
  ⟨by decide, (C1_dedup_by_date_only recB [recA2]).2 (by decide)⟩

/-! ### Shape lemmas for the strptime model and the extractor -/

/-- A successful `strptimeDate` result is a validated calendar date at
midnight. -/
theorem strptimeDate_shape (s : List Char) (d : PDateTime)
    (h : strptimeDate s = some d) :
    d.hour = 0 ∧ d.minute = 0 ∧ d.second = 0 ∧ dtOk d = true := by
  unfold strptimeDate at h
  simp only [bind, Option.bind_eq_some] at h
  obtain ⟨⟨dd, s1⟩, h1, h⟩ := h
  obtain ⟨s2, h2, h⟩ := h
  obtain ⟨⟨mo, s3⟩, h3, h⟩ := h
  obtain ⟨s4, h4, h⟩ := h
  obtain ⟨⟨yy, s5⟩, h5, h⟩ := h
  simp only at h
  split_ifs at h with hne hok
  have hd := Option.some.inj h
  subst hd
  exact ⟨rfl, rfl, rfl, hok⟩

/-- A successful `strptimeDateTime` result is a validated instant. -/
theorem strptimeDateTime_shape (s : List Char) (d : PDateTime)
    (h : strptimeDateTime s = some d) : dtOk d = true := by
  unfold strptimeDateTime at h
  simp only [bind, Option.bind_eq_some] at h
  obtain ⟨⟨dd, s1⟩, h1, h⟩ := h
  obtain ⟨s2, h2, h⟩ := h
  obtain ⟨⟨mo, s3⟩, h3, h⟩ := h
  obtain ⟨s4, h4, h⟩ := h
  obtain ⟨⟨yy, s5⟩, h5, h⟩ := h
  obtain ⟨⟨hh, s6⟩, h6, h⟩ := h
  obtain ⟨s7, h7, h⟩ := h
  obtain ⟨⟨mi, s8⟩, h8, h⟩ := h
  obtain ⟨s9, h9, h⟩ := h
  obtain ⟨⟨ss, s10⟩, h10, h⟩ := h
  simp only at h
  split_ifs at h with hws hne hok
  have hd := Option.some.inj h
  subst hd
  exact hok

/-- A successful parse yields exactly the record literal of the source,
built from the four successful searches. -/
theorem parse_ok_shape (text : List Char) (r : TradeRecord)
    (h : parse_trade_data text = ParseResult.ok r) :
    ∃ isin ds g p, searchIsin text = some isin ∧ extractDate text = DateResult.ok ds ∧
      searchPieces text = some g ∧ searchPrice text = some p ∧ r = mkRecord isin ds g p := by
  unfold parse_trade_data at h
  split at h
  · exact absurd h (by simp)
  next isin hi =>
    split at h
    · exact absurd h (by simp)
    · exact absurd h (by simp)
    next ds he =>
      split at h
      · exact absurd h (by simp)
      next g hg =>
        split at h
        · exact absurd h (by simp)
        next p hp =>
          injection h with h
          exact ⟨isin, ds, g, p, hi, he, hg, hp, h.symm⟩

/-- A successful timestamp extraction renders a validated instant with
`isoformat`. -/
theorem extractDate_ok_shape (text : List Char) (ds : String)
    (h : extractDate text = DateResult.ok ds) :
    ∃ dt, dtOk dt = true ∧ ds = isoformat dt := by
  unfold extractDate at h
  split at h
  next g hg =>
    split at h
    next dt hdt =>
      injection h with h
      exact ⟨dt, strptimeDateTime_shape g dt hdt, h.symm⟩
    next hdt => exact absurd h (by simp)
  next hg =>
    split at h
    next g2 hg2 =>
      split at h
      next d0 hd0 =>
        injection h with h
        exact ⟨d0, (strptimeDate_shape g2 d0 hd0).2.2.2, h.symm⟩
      next hd0 => exact absurd h (by simp)
    next hg2 => exact absurd h (by simp)

/-! ### Claim C3 -/

/-- C3: timestamp extraction prefers the combined date-time pattern, whose
instant becomes the record's date; with only the date pattern the record's
date is that date at midnight; with neither, extraction fails with a
missing-date skip and no record is produced. -/
theorem C3_timestamp_priority (text g g2 : List Char) (dt d0 : PDateTime) (r : TradeRecord) :
    (searchDateTime text = some g → strptimeDateTime g = some dt →
      extractDate text = DateResult.ok (isoformat dt) ∧
      (parse_trade_data text = ParseResult.ok r → r.date = isoformat dt))
    ∧ (searchDateTime text = none → searchDate text = some g2 → strptimeDate g2 = some d0 →
      (d0.hour = 0 ∧ d0.minute = 0 ∧ d0.second = 0) ∧
      extractDate text = DateResult.ok (isoformat d0) ∧
      (parse_trade_data text = ParseResult.ok r → r.date = isoformat d0))
    ∧ (searchDateTime text = none → searchDate text = none →
      extractDate text = DateResult.missingDate ∧ parse_trade_data text ≠ ParseResult.ok r) := by
  refine ⟨fun hg hdt => ?_, fun hg hd hp => ?_, fun hg hd => ?_⟩
  · have he : extractDate text = DateResult.ok (isoformat dt) := by
      simp only [extractDate, hg, hdt]
    refine ⟨he, fun hr => ?_⟩
    obtain ⟨isin, ds, gg, pp, hi, he2, hpc, hpr, hrec⟩ := parse_ok_shape text r hr
    rw [he] at he2
    injection he2 with he2
    rw [hrec]
    simp only [mkRecord]
    exact he2.symm
  · have he : extractDate text = DateResult.ok (isoformat d0) := by
      simp only [extractDate, hg, hd, hp]
    obtain ⟨hh, hm, hs, _⟩ := strptimeDate_shape g2 d0 hp
    refine ⟨⟨hh, hm, hs⟩, he, fun hr => ?_⟩
    obtain ⟨isin, ds, gg, pp, hi, he2, hpc, hpr, hrec⟩ := parse_ok_shape text r hr
    rw [he] at he2
    injection he2 with he2
    rw [hrec]
    simp only [mkRecord]
    exact he2.symm
  · have he : extractDate text = DateResult.missingDate := by
      simp only [extractDate, hg, hd]
    refine ⟨he, fun hr => ?_⟩
    obtain ⟨isin, ds, gg, pp, hi, he2, hpc, hpr, hrec⟩ := parse_ok_shape text r hr
    rw [he] at he2
    exact absurd he2 (by simp)

/-- Witness for C3 at a concrete document text carrying a combined
date-time field. -/
theorem C3_timestamp_witness :
    searchDateTime tA = some gA ∧ strptimeDateTime gA = some dtA ∧
    parse_trade_data tA = ParseResult.ok recA ∧ recA.date = isoformat dtA :=
  ⟨by decide, by decide, by rfl,
    ((C3_timestamp_priority tA gA gA dtA dtA recA).1 (by decide) (by decide)).2 (by rfl)⟩

/-! ### Claim C4 -/

/-- C4: when the quantity pattern matches, the extracted quantity is the
integer capture plus the fractional capture read as a decimal fraction;
fractional captures "5" and "50" both contribute one half, "Stück 10,5"
yields ten and a half, and "Stück 3" yields exactly three. -/
theorem C4_quantity_decimal_fraction (text ip : List Char) (fp : Option (List Char))
    (r : TradeRecord) :
    (parse_trade_data text = ParseResult.ok r → searchPieces text = some (ip, fp) →
      r.quantity = (digitsToNat ip : ℚ) + fracPart fp)
    ∧ pieceValOf (strL "Stück 10,5") = some (21 / 2 : ℚ)
    ∧ pieceValOf (strL "Stück 3") = some (3 : ℚ)
    ∧ fracPart (some (strL "5")) = (1 / 2 : ℚ)
    ∧ fracPart (some (strL "50")) = (1 / 2 : ℚ) := by
  refine ⟨fun hr hp => ?_, ?_, ?_, ?_, ?_⟩
  · obtain ⟨isin, ds, gg, pp, hi, he2, hpc, hpr, hrec⟩ := parse_ok_shape text r hr
    rw [hp] at hpc
    injection hpc with hpc
    subst hpc
    rw [hrec]
    simp only [mkRecord, pieceVal]
  · have h : searchPieces (strL "Stück 10,5") = some (strL "10", some (strL "5")) := by decide
    rw [pieceValOf, h, Option.map_some']
    norm_num [pieceVal, fracPart, show digitsToNat (strL "10") = 10 from by decide,
      show digitsToNat (strL "5") = 5 from by decide,
      show (strL "5").length = 1 from by decide]
  · have h : searchPieces (strL "Stück 3") = some (strL "3", none) := by decide
    rw [pieceValOf, h, Option.map_some']
    norm_num [pieceVal, fracPart, show digitsToNat (strL "3") = 3 from by decide]
  · norm_num [fracPart, show digitsToNat (strL "5") = 5 from by decide,
      show (strL "5").length = 1 from by decide]
  · norm_num [fracPart, show digitsToNat (strL "50") = 50 from by decide,
      show (strL "50").length = 2 from by decide]

/-- Witness for C4 at a concrete document text. -/
theorem C4_quantity_witness :
    parse_trade_data tA = ParseResult.ok recA ∧ searchPieces tA = some (strL "2", none) ∧
    recA.quantity = (digitsToNat (strL "2") : ℚ) + fracPart none :=
  ⟨by rfl, by decide,
    (C4_quantity_decimal_fraction tA (strL "2") none recA).1 (by rfl) (by decide)⟩

/-! ### Decomposition of a successful price match -/

/-- A successful literal strip means the literal was a prefix. -/
theorem stripLit_eq (l : List Char) :
    ∀ s s1, stripLit l s = some s1 → s = l ++ s1 := by
  induction l with
  | nil =>
    intro s s1 h
    simpa [stripLit] using h
  | cons a l ih =>
    intro s s1 h
    cases s with
    | nil => exact absurd h (by simp [stripLit])
    | cons c cs =>
      unfold stripLit at h
      split_ifs at h with hc
      subst hc
      rw [List.cons_append]
      exact congrArg (c :: ·) (ih cs s1 h)

/-- Everything `takeWhile` keeps satisfies the predicate. -/
theorem takeWhile_all (p : Char → Bool) :
    ∀ (l : List Char), ∀ c ∈ l.takeWhile p, p c = true := by
  intro l c h
  exact List.mem_takeWhile_imp h

/-- A successful leftmost search is a successful match on some suffix. -/
theorem searchWith_some {A : Type} (m : List Char → Option A) :
    ∀ (t : List Char) (r : A), searchWith m t = some r →
      ∃ pre s, t = pre ++ s ∧ m s = some r := by
  intro t
  induction t with
  | nil =>
    intro r h
    exact ⟨[], [], rfl, h⟩
  | cons c cs ih =>
    intro r h
    unfold searchWith at h
    cases hm : m (c :: cs) with
    | some r2 =>
      rw [hm] at h
      injection h with h
      subst h
      exact ⟨[], c :: cs, rfl, hm⟩
    | none =>
      rw [hm] at h
      rcases ih r h with ⟨pre, s, ht, hs⟩
      exact ⟨c :: pre, s, by rw [List.cons_append, ht], hs⟩

/-- Anatomy of a successful price match at one position: the matched suffix
starts with the literal label, optional whitespace, the nonempty integer
digits, a comma, the nonempty fractional digits, mandatory whitespace, and
the literal `EUR`. -/
theorem matchPriceAt_decomp (s i f : List Char) (h : matchPriceAt s = some (i, f)) :
    ∃ sp ws rest,
      (∀ c ∈ sp, isSpaceChar c = true) ∧ (∀ c ∈ i, isDigitChar c = true) ∧ i ≠ [] ∧
      (∀ c ∈ f, isDigitChar c = true) ∧ f ≠ [] ∧
      (∀ c ∈ ws, isSpaceChar c = true) ∧ ws ≠ [] ∧
      s = strL "Ausführungskurs" ++ sp ++ i ++ [','] ++ f ++ ws ++ strL "EUR" ++ rest := by
  unfold matchPriceAt at h
  cases h1 : stripLit (strL "Ausführungskurs") s with
  | none => rw [h1] at h; exact absurd h (by simp)
  | some s1 =>
    rw [h1] at h
    simp only at h
    split_ifs at h with hds
    cases h2 : stripLit [','] ((s1.dropWhile isSpaceChar).dropWhile isDigitChar) with
    | none => rw [h2] at h; exact absurd h (by simp)
    | some s4 =>
      rw [h2] at h
      simp only at h
      split_ifs at h with hfs hws
      cases h3 : stripLit (strL "EUR") ((s4.dropWhile isDigitChar).dropWhile isSpaceChar) with
      | none => rw [h3] at h; exact absurd h (by simp)
      | some s7 =>
        rw [h3] at h
        injection h with h
        injection h with hi hf
        subst hi
        subst hf
        refine ⟨(s1.takeWhile isSpaceChar), ((s4.dropWhile isDigitChar).takeWhile isSpaceChar),
          s7, takeWhile_all _ _, takeWhile_all _ _, hds, takeWhile_all _ _, hfs,
          takeWhile_all _ _, hws, ?_⟩
        have e1 : s = strL "Ausführungskurs" ++ s1 := stripLit_eq _ s s1 h1
        have e2 : s1 = s1.takeWhile isSpaceChar ++ s1.dropWhile isSpaceChar :=
          (List.takeWhile_append_dropWhile isSpaceChar s1).symm
        have e3 : s1.dropWhile isSpaceChar =
            (s1.dropWhile isSpaceChar).takeWhile isDigitChar ++
              (s1.dropWhile isSpaceChar).dropWhile isDigitChar :=
          (List.takeWhile_append_dropWhile isDigitChar _).symm
        have e4 : (s1.dropWhile isSpaceChar).dropWhile isDigitChar = [','] ++ s4 :=
          stripLit_eq _ _ _ h2
        have e5 : s4 = s4.takeWhile isDigitChar ++ s4.dropWhile isDigitChar :=
          (List.takeWhile_append_dropWhile isDigitChar s4).symm
        have e6 : s4.dropWhile isDigitChar =
            (s4.dropWhile isDigitChar).takeWhile isSpaceChar ++
              (s4.dropWhile isDigitChar).dropWhile isSpaceChar :=
          (List.takeWhile_append_dropWhile isSpaceChar _).symm
        have e7 : (s4.dropWhile isDigitChar).dropWhile isSpaceChar = strL "EUR" ++ s7 :=
          stripLit_eq _ _ _ h3
        rw [e1]
        nth_rewrite 1 [e2]
        nth_rewrite 1 [e3]
        rw [e4]
        nth_rewrite 1 [e5]
        nth_rewrite 1 [e6]
        rw [e7]
        simp [List.append_assoc]

/-- Anatomy of a successful price search anywhere in the text. -/
theorem searchPrice_decomp (text i f : List Char) (h : searchPrice text = some (i, f)) :
    ∃ pre sp ws rest,
      (∀ c ∈ sp, isSpaceChar c = true) ∧ (∀ c ∈ i, isDigitChar c = true) ∧ i ≠ [] ∧
      (∀ c ∈ f, isDigitChar c = true) ∧ f ≠ [] ∧
      (∀ c ∈ ws, isSpaceChar c = true) ∧ ws ≠ [] ∧
      text = pre ++ strL "Ausführungskurs" ++ sp ++ i ++ [','] ++ f ++ ws ++ strL "EUR" ++ rest := by
  obtain ⟨pre, s, ht, hm⟩ := searchWith_some matchPriceAt text (i, f) h
  obtain ⟨sp, ws, rest, hsp, hdi, hine, hdf, hfne, hws, hwsne, hs⟩ := matchPriceAt_decomp s i f hm
  exact ⟨pre, sp, ws, rest, hsp, hdi, hine, hdf, hfne, hws, hwsne,
    by rw [ht, hs]; simp [List.append_assoc]⟩

/-! ### Claim C5 -/

/-- C5: the unit-price pattern only matches a comma-decimal numeric followed
(after mandatory whitespace) by the fixed currency literal EUR; the fragment
"Ausführungskurs 123,45 EUR" yields unit price 123.45 and the same fragment
with currency USD does not match at all. -/
theorem C5_price_anchored_to_eur (text i f : List Char) :
    (searchPrice text = some (i, f) →
      ∃ pre sp ws rest, (∀ c ∈ ws, isSpaceChar c = true) ∧ ws ≠ [] ∧
        text = pre ++ strL "Ausführungskurs" ++ sp ++ i ++ [','] ++ f ++ ws ++
          strL "EUR" ++ rest)
    ∧ priceValOf (strL "Ausführungskurs 123,45 EUR") = some (2469 / 20 : ℚ)
    ∧ searchPrice (strL "Ausführungskurs 123,45 USD") = none := by
  refine ⟨fun h => ?_, ?_, by decide⟩
  · obtain ⟨pre, sp, ws, rest, hsp, hdi, hine, hdf, hfne, hws, hwsne, hs⟩ :=
      searchPrice_decomp text i f h
    exact ⟨pre, sp, ws, rest, hws, hwsne, hs⟩
  · have h : searchPrice (strL "Ausführungskurs 123,45 EUR") =
        some (strL "123", strL "45") := by decide
    rw [priceValOf, h, Option.map_some']
    norm_num [priceVal, fracPart, show digitsToNat (strL "123") = 123 from by decide,
      show digitsToNat (strL "45") = 45 from by decide,
      show (strL "45").length = 2 from by decide]

/-- Witness for C5 at a concrete text containing a price field. -/
theorem C5_price_witness :
    searchPrice tA = some (strL "328", strL "90") ∧
    ∃ pre sp ws rest, (∀ c ∈ ws, isSpaceChar c = true) ∧ ws ≠ [] ∧
      tA = pre ++ strL "Ausführungskurs" ++ sp ++ strL "328" ++ [','] ++ strL "90" ++ ws ++
        strL "EUR" ++ rest :=
  ⟨by decide,
    (C5_price_anchored_to_eur tA (strL "328") (strL "90")).1 (by decide)⟩

/-! ### Claim C6 -/

/-- C6 counterexample: the quantity pattern matches a bare integer, but the
price pattern does not — its comma-fraction is mandatory, so the two numeric
sub-patterns are not identical. -/
theorem C6_counterexample :
    searchPieces (strL "Stück 123") = some (strL "123", none)
    ∧ searchPrice (strL "Ausführungskurs 123 EUR") = none := by
  decide

/-- C6 as amended: the price pattern's fractional part is mandatory (both
captures nonempty digit strings), while the quantity pattern's is optional;
on a numeric with a comma fraction the two agree and are parsed alike, but a
fraction-free price line does not match although the same numeric matches as
a quantity. -/
theorem C6_price_fraction_mandatory (text i f : List Char) :
    (searchPrice text = some (i, f) →
      i ≠ [] ∧ f ≠ [] ∧ (∀ c ∈ i, isDigitChar c = true) ∧ (∀ c ∈ f, isDigitChar c = true) ∧
      priceVal (i, f) = pieceVal (i, some f))
    ∧ searchPieces (strL "Stück 123,45") = some (strL "123", some (strL "45"))
    ∧ searchPrice (strL "Ausführungskurs 123,45 EUR") = some (strL "123", strL "45")
    ∧ searchPieces (strL "Stück 123") = some (strL "123", none)
    ∧ searchPrice (strL "Ausführungskurs 123 EUR") = none := by
  refine ⟨fun h => ?_, by decide, by decide, by decide, by decide⟩
  obtain ⟨pre, sp, ws, rest, hsp, hdi, hine, hdf, hfne, hws, hwsne, hs⟩ :=
    searchPrice_decomp text i f h
  exact ⟨hine, hfne, hdi, hdf, rfl⟩

/-- Witness for C6's amended statement at a concrete text. -/
theorem C6_fraction_witness :
    searchPrice tA = some (strL "328", strL "90") ∧
    (strL "328" ≠ [] ∧ strL "90" ≠ [] ∧
      (∀ c ∈ strL "328", isDigitChar c = true) ∧ (∀ c ∈ strL "90", isDigitChar c = true) ∧
      priceVal (strL "328", strL "90") = pieceVal (strL "328", some (strL "90"))) :=
  ⟨by decide, (C6_price_fraction_mandatory tA (strL "328") (strL "90")).1 (by decide)⟩

/-! ### Claim C2 -/

/-! ### Structural lemmas about the batch loop -/

/-- Integration never removes an existing record. -/
theorem mem_integrate_of_mem (r c : TradeRecord) (coll : List TradeRecord)
    (h : r ∈ coll) : r ∈ integrate c coll := by
  unfold integrate
  split_ifs
  · exact h
  · exact List.mem_append_left _ h

/-- One loop iteration only ever appends to the collection. -/
theorem processDoc_grows (data : List TradeRecord) (d : Doc) (c2 : List TradeRecord)
    (h : processDoc data d = some c2) : ∃ e, c2 = data ++ e := by
  unfold processDoc at h
  split at h
  · injection h with h
    exact ⟨[], by rw [← h]; simp⟩
  next tt hcl =>
    split at h
    · exact absurd h (by simp)
    · injection h with h
      exact ⟨[], by rw [← h]; simp⟩
    next t0 hpar =>
      simp only at h
      split_ifs at h with hig
      · injection h with h
        exact ⟨[], by rw [← h]; simp⟩
      · injection h with h
        rw [← h]
        unfold integrate
        split_ifs with hdup
        · exact ⟨[], by simp⟩
        · exact ⟨[withType t0 tt], rfl⟩

/-- The whole loop only ever appends to the starting collection. -/
theorem runBatch_grows (docs : List Doc) :
    ∀ (data fin : List TradeRecord), runBatch docs data = some fin → ∃ e, fin = data ++ e := by
  induction docs with
  | nil =>
    intro data fin h
    simp only [runBatch] at h
    injection h with h
    exact ⟨[], by rw [← h]; simp⟩
  | cons d ds ih =>
    intro data fin h
    simp only [runBatch] at h
    split at h
    · exact absurd h (by simp)
    next c1 hp =>
      obtain ⟨e1, he1⟩ := processDoc_grows data d c1 hp
      obtain ⟨e2, he2⟩ := ih c1 fin h
      exact ⟨e1 ++ e2, by rw [he2, he1, List.append_assoc]⟩

/-- Any record present after one loop iteration was already present, or is
the typed parse result of that document with a non-ignored symbol. -/
theorem processDoc_mem (data : List TradeRecord) (d : Doc) (c2 : List TradeRecord)
    (h : processDoc data d = some c2) (r : TradeRecord) (hr : r ∈ c2) :
    r ∈ data ∨ ∃ tt t0, classify d.fname = some tt ∧
      parse_trade_data d.text = ParseResult.ok t0 ∧ t0.symbol ∉ ignoredsymbols ∧
      r = withType t0 tt := by
  unfold processDoc at h
  split at h
  · injection h with h
    subst h
    exact Or.inl hr
  next tt hcl =>
    split at h
    · exact absurd h (by simp)
    · injection h with h
      subst h
      exact Or.inl hr
    next t0 hpar =>
      simp only at h
      split_ifs at h with hig
      · injection h with h
        subst h
        exact Or.inl hr
      · injection h with h
        subst h
        unfold integrate at hr
        split_ifs at hr with hdup
        · exact Or.inl hr
        · rcases List.mem_append.mp hr with hin | hnew
          · exact Or.inl hin
          · refine Or.inr ⟨tt, t0, hcl, hpar, ?_, List.mem_singleton.mp hnew⟩
            simpa [withType] using hig

/-- Any record in the final collection came from the starting collection or
is the typed, non-ignored parse result of one of the input documents. -/
theorem runBatch_mem (docs : List Doc) :
    ∀ (data fin : List TradeRecord), runBatch docs data = some fin →
      ∀ r ∈ fin, r ∈ data ∨ ∃ d ∈ docs, ∃ tt t0, classify d.fname = some tt ∧
        parse_trade_data d.text = ParseResult.ok t0 ∧ t0.symbol ∉ ignoredsymbols ∧
        r = withType t0 tt := by
  induction docs with
  | nil =>
    intro data fin h r hr
    simp only [runBatch] at h
    injection h with h
    subst h
    exact Or.inl hr
  | cons d ds ih =>
    intro data fin h r hr
    simp only [runBatch] at h
    split at h
    · exact absurd h (by simp)
    next c1 hp =>
      rcases ih c1 fin h r hr with hin | ⟨d2, hd2, tt2, t02, hcl2, hp2, hig2, hr2⟩
      · rcases processDoc_mem data d c1 hp r hin with hin2 | ⟨tt, t0, hcl, hpar, hig, hrr⟩
        · exact Or.inl hin2
        · exact Or.inr ⟨d, List.mem_cons_self d ds, tt, t0, hcl, hpar, hig, hrr⟩
      · exact Or.inr ⟨d2, List.mem_cons_of_mem d hd2, tt2, t02, hcl2, hp2, hig2, hr2⟩

/-- If every record a loop iteration could have produced already has its
date in a collection `C`, that iteration leaves `C` unchanged. -/
theorem processDoc_stable (d : Doc) (c c2 C : List TradeRecord)
    (h : processDoc c d = some c2)
    (hsub : ∀ r ∈ c2, r.date ∈ C.map TradeRecord.date) :
    processDoc C d = some C := by
  cases hcl : classify d.fname with
  | none => simp only [processDoc, hcl]
  | some tt =>
    cases hpar : parse_trade_data d.text with
    | crash =>
      simp only [processDoc, hcl, hpar] at h
      exact absurd h (by simp)
    | skipped =>
      simp only [processDoc, hcl, hpar]
    | ok t0 =>
      simp only [processDoc, hcl, hpar] at h ⊢
      split_ifs at h ⊢ with hig
      · rfl
      · injection h with h
        have hdin : (withType t0 tt).date ∈ C.map TradeRecord.date := by
          by_cases hdup : ∃ rr ∈ c, rr.date = (withType t0 tt).date
          · obtain ⟨rr, hrr, hre⟩ := hdup
            have hrc2 : rr ∈ c2 := by
              rw [← h]
              exact mem_integrate_of_mem rr _ c hrr
            rw [← hre]
            exact hsub rr hrc2
          · have hins : integrate (withType t0 tt) c = c ++ [withType t0 tt] := by
              unfold integrate
              rw [if_neg (fun hb => hdup ((any_date_iff _ c).mp hb))]
            have hmem : withType t0 tt ∈ c2 := by
              rw [← h, hins]
              exact List.mem_append_right _ (List.mem_singleton_self _)
            exact hsub _ hmem
        congr 1
        obtain ⟨rr, hrr, hre⟩ := List.mem_map.mp hdin
        unfold integrate
        rw [if_pos ((any_date_iff _ C).mpr ⟨rr, hrr, hre⟩)]

/-- C2: contrary to the stated locality of extraction failures, a document
with identifier and date but no quantity pattern makes `pieces.group(1)`
raise on `None`, crashing `parse_trade_data` and aborting the whole batch
before later documents are processed or any output is written. -/
theorem C2_missing_quantity_aborts_batch :
    parse_trade_data tC2 = ParseResult.crash ∧ runBatch [docC2, docA] [] = none := by
  decide

/-! ### Claim C7 -/

/-- A fractional capture never contributes a negative amount. -/
theorem fracPart_nonneg (g : Option (List Char)) : 0 ≤ fracPart g := by
  cases g with
  | none => simp [fracPart]
  | some ds =>
    unfold fracPart
    positivity

/-- Parsed quantities are nonnegative. -/
theorem pieceVal_nonneg (g : List Char × Option (List Char)) : 0 ≤ pieceVal g :=
  add_nonneg (Nat.cast_nonneg _) (fracPart_nonneg _)

/-- Parsed unit prices are nonnegative. -/
theorem priceVal_nonneg (g : List Char × List Char) : 0 ≤ priceVal g :=
  add_nonneg (Nat.cast_nonneg _) (fracPart_nonneg _)

/-- C7 counterexample: a well-formed document with quantity field zero
("Stück 0") produces a record with quantity 0 that enters the collection,
violating the claimed `quantity > 0` invariant. -/
theorem C7_counterexample :
    runBatch [docC7] [] = some [recC7] ∧ ¬ (0 < recC7.quantity) := by
  constructor
  · rfl
  · norm_num [recC7, pieceVal, fracPart, show digitsToNat (strL "0") = 0 from by decide]

/-- C7 as amended: every record the run adds to the collection has
`quantity ≥ 0` (zero is possible) and `unitPrice ≥ 0`, and its date is the
iso rendering of a validated timestamp. -/
theorem C7_new_records_nonneg (docs : List Doc) (init fin : List TradeRecord)
    (h : runBatch docs init = some fin) :
    ∀ r ∈ fin, r ∈ init ∨
      (0 ≤ r.quantity ∧ 0 ≤ r.unitPrice ∧ ∃ dt, dtOk dt = true ∧ r.date = isoformat dt) := by
  intro r hr
  rcases runBatch_mem docs init fin h r hr with hin | ⟨d, hd, tt, t0, hcl, hpar, hig, hrec⟩
  · exact Or.inl hin
  · right
    obtain ⟨isin, ds, gg, pp, hi, he, hg, hp, hmk⟩ := parse_ok_shape d.text t0 hpar
    obtain ⟨dt, hok, hds⟩ := extractDate_ok_shape d.text ds he
    subst hrec
    subst hmk
    refine ⟨?_, ?_, dt, hok, ?_⟩
    · simpa [withType, mkRecord] using pieceVal_nonneg gg
    · simpa [withType, mkRecord] using priceVal_nonneg pp
    · simpa [withType, mkRecord] using hds

/-- Witness for C7's amended statement at the concrete zero-quantity run. -/
theorem C7_nonneg_witness :
    runBatch [docC7] [] = some [recC7] ∧
    (recC7 ∈ ([] : List TradeRecord) ∨
      (0 ≤ recC7.quantity ∧ 0 ≤ recC7.unitPrice ∧
        ∃ dt, dtOk dt = true ∧ recC7.date = isoformat dt)) :=
  ⟨by rfl, C7_new_records_nonneg [docC7] [] [recC7] (by rfl) recC7 (by simp)⟩

/-! ### Claim C8 -/

/-- C8: a second run over the same documents, starting in merge mode from
the first run's output collection, reproduces that collection unchanged —
every candidate is discarded as a date duplicate. -/
theorem C8_second_run_is_noop (docs : List Doc) (init coll1 : List TradeRecord)
    (h : runBatch docs init = some coll1) : runBatch docs coll1 = some coll1 := by
  induction docs generalizing init with
  | nil => rfl
  | cons d ds ih =>
    simp only [runBatch] at h ⊢
    split at h
    · exact absurd h (by simp)
    next c1 hp =>
      obtain ⟨e, he⟩ := runBatch_grows ds c1 coll1 h
      have hsub : ∀ r ∈ c1, r.date ∈ coll1.map TradeRecord.date := by
        intro r hr
        exact List.mem_map.mpr ⟨r, by rw [he]; exact List.mem_append_left _ hr, rfl⟩
      rw [processDoc_stable d init c1 coll1 hp hsub]
      exact ih c1 h

/-- Witness for C8: rerunning the one-document batch on its own output
changes nothing. -/
theorem C8_noop_witness :
    runBatch [docA] [] = some [recA2] ∧ runBatch [docA] [recA2] = some [recA2] :=
  ⟨by rfl, C8_second_run_is_noop [docA] [] [recA2] (by rfl)⟩

/-! ### Claim C9 -/

/-- C9: a document whose parsed identifier is in the ignore set is skipped
without integrating anything (processing continues with the collection
unchanged), and no record with an ignored symbol ever enters the output
beyond those already in the starting collection. -/
theorem C9_ignored_never_in_output (docs : List Doc) (init fin c : List TradeRecord)
    (d : Doc) (tt : String) (t0 : TradeRecord) :
    (classify d.fname = some tt → parse_trade_data d.text = ParseResult.ok t0 →
      t0.symbol ∈ ignoredsymbols → processDoc c d = some c)
    ∧ (runBatch docs init = some fin →
      ∀ r ∈ fin, r.symbol ∈ ignoredsymbols → r ∈ init) := by
  constructor
  · intro hcl hpar hig
    simp only [processDoc, hcl, hpar]
    rw [if_pos (by simpa [withType] using hig)]
  · intro h r hr hig
    rcases runBatch_mem docs init fin h r hr with hin | ⟨d2, hd2, tt2, t02, hcl2, hp2, hnig, hrec⟩
    · exact hin
    · exfalso
      apply hnig
      rw [hrec] at hig
      simpa [withType] using hig

/-- Witness for C9 at a concrete ignored-symbol document. -/
theorem C9_ignored_witness :
    classify docC9.fname = some "BUY" ∧ parse_trade_data docC9.text = ParseResult.ok recC9 ∧
    recC9.symbol ∈ ignoredsymbols ∧ processDoc [] docC9 = some [] :=
  ⟨by decide, by rfl, by decide,
    (C9_ignored_never_in_output [] [] [] [] docC9 "BUY" recC9).1 (by decide) (by rfl) (by decide)⟩

/-! ### Claim C10 -/

/-- C10: every successfully parsed record carries the constant account id,
empty comment, zero fee, EUR currency and MANUAL data source, and hence so
does every record the run adds to the collection. -/
theorem C10_constant_fields (text : List Char) (r : TradeRecord) (docs : List Doc)
    (init fin : List TradeRecord) :
    (parse_trade_data text = ParseResult.ok r →
      r.accountId = "e2a4628f-1146-4ab8-b559-6058c7657bbb" ∧ r.comment = "" ∧ r.fee = 0 ∧
      r.currency = "EUR" ∧ r.dataSource = "MANUAL")
    ∧ (runBatch docs init = some fin → ∀ q ∈ fin, q ∈ init ∨
      (q.accountId = "e2a4628f-1146-4ab8-b559-6058c7657bbb" ∧ q.comment = "" ∧ q.fee = 0 ∧
        q.currency = "EUR" ∧ q.dataSource = "MANUAL")) := by
  constructor
  · intro h
    obtain ⟨isin, ds, gg, pp, hi, he, hg, hp, hmk⟩ := parse_ok_shape text r h
    subst hmk
    simp [mkRecord]
  · intro h q hq
    rcases runBatch_mem docs init fin h q hq with hin | ⟨d, hd, tt, t0, hcl, hpar, hig, hrec⟩
    · exact Or.inl hin
    · right
      obtain ⟨isin, ds, gg, pp, hi, he, hg, hp, hmk⟩ := parse_ok_shape d.text t0 hpar
      subst hrec
      subst hmk
      simp [withType, mkRecord]

/-- Witness for C10 at a concrete parsed record. -/
theorem C10_constants_witness :
    parse_trade_data tA = ParseResult.ok recA ∧
    (recA.accountId = "e2a4628f-1146-4ab8-b559-6058c7657bbb" ∧ recA.comment = "" ∧
      recA.fee = 0 ∧ recA.currency = "EUR" ∧ recA.dataSource = "MANUAL") :=
  ⟨by rfl, (C10_constant_fields tA recA [] [] []).1 (by rfl)⟩

end Dkb
